import Mathlib

/-
Verification of the template rendering core of `le_middle_instagram_agent`.

The repository renders Instagram graphics from content records.  This file
shallowly embeds the algorithmic core (greedy text wrapping, the adaptive
font-fit search, gradient rasters, the Quote-card layout arithmetic, and the
content-record default/effect-selection logic of the three template
composers) as executable Lean definitions and proves the specified
properties about them.

Conventions of the embedding:
* pixel/text measurement done by PIL (`draw.textbbox`) is abstracted as a
  function `String → Nat` (the measured pixel width) resp. `Nat → Nat`
  (bounding-box extent as a function of the font size);
* Python float arithmetic on ratios is modelled exactly over `ℚ`/`Nat`
  (the comparisons in the source involve only small decimal constants);
* Python `dict.get(key, default)` is modelled over records
  `String → Option PyVal` with Python truthiness made explicit.
-/

namespace LeMiddle

/- ---------------------------------------------------------------------
   §1  Text wrapping  (`BaseGenerator.wrap_text`, base_generator.py:81-106)
   --------------------------------------------------------------------- -/

/-- Accumulating scanner for `pySplit`: `acc` holds the characters of the
word in progress, reversed.  A whitespace character closes the current
word (if any); the end of the input flushes it. -/
def splitWsGo : List Char → List Char → List String
  | [], acc => if acc = [] then [] else [String.mk acc.reverse]
  | c :: cs, acc =>
      if c.isWhitespace then
        (if acc = [] then splitWsGo cs [] else String.mk acc.reverse :: splitWsGo cs [])
      else splitWsGo cs (c :: acc)

/-- Python `str.split()` with no argument: the maximal runs of
non-whitespace characters, in order; whitespace runs act as separators
and leading/trailing whitespace is discarded. -/
def pySplit (s : String) : List String :=
  splitWsGo s.data []

/-- Joining a list of strings with single spaces.  `joinSp [a, b, c] =
a ++ " " ++ b ++ " " ++ c`; used to state the wrap/join round-trip. -/
def joinSp : List String → String
  | [] => ""
  | [s] => s
  | s :: rest => s ++ " " ++ joinSp rest

/-- The loop of `BaseGenerator.wrap_text`: `words` is the remaining word
stream, `current` the accumulating line.  The source forms
`f"{current_line} {word}".strip()`; since the words come from
`str.split()` they contain no whitespace, so that expression equals
`word` when `current_line` is empty and `current_line ++ " " ++ word`
otherwise, which is how the test line is built here.  `mw` is the
measured pixel width `bbox[2] - bbox[0]` of a string under the font. -/
def wrapLoop (mw : String → Nat) (maxW : Nat) : List String → String → List String
  | [], current => if current = "" then [] else [current]
  | word :: ws, current =>
      let test := if current = "" then word else current ++ " " ++ word
      if mw test ≤ maxW then
        wrapLoop mw maxW ws test
      else if current = "" then
        wrapLoop mw maxW ws word
      else
        current :: wrapLoop mw maxW ws word

/-- `BaseGenerator.wrap_text(text, font, max_width)`:
`words = text.split()`, then the greedy accumulation loop. -/
def wrapText (mw : String → Nat) (text : String) (maxW : Nat) : List String :=
  wrapLoop mw maxW (pySplit text) ""

/-- The whitespace-collapse of the spec sentence for C2: every maximal
whitespace run replaced by a single space, leading/trailing whitespace
removed.  Modelled from the spec as joining the split words with single
spaces. -/
def collapseWs (s : String) : String :=
  joinSp (pySplit s)

/-- Every line emitted by `wrapLoop` either fit the measurement test at
the moment it was last extended, or is a single word of the remaining
stream, or is the incoming (nonempty) accumulator. -/
lemma wrapLoop_mem (mw : String → Nat) (maxW : Nat) :
    ∀ (ws : List String) (current line : String),
      line ∈ wrapLoop mw maxW ws current →
      mw line ≤ maxW ∨ line ∈ ws ∨ (line = current ∧ current ≠ "") := by
  intro ws
  induction ws with
  | nil =>
      intro current line hline
      simp only [wrapLoop] at hline
      by_cases hc : current = ""
      · simp [hc] at hline
      · simp [hc] at hline
        exact Or.inr (Or.inr ⟨hline, hc⟩)
  | cons word ws ih =>
      intro current line hline
      simp only [wrapLoop] at hline
      by_cases hfit : mw (if current = "" then word else current ++ " " ++ word) ≤ maxW
      · rw [if_pos hfit] at hline
        rcases ih _ line hline with h | h | ⟨h, _⟩
        · exact Or.inl h
        · exact Or.inr (Or.inl (List.mem_cons_of_mem _ h))
        · subst h; exact Or.inl hfit
      · rw [if_neg hfit] at hline
        by_cases hc : current = ""
        · rw [if_pos hc] at hline
          rcases ih _ line hline with h | h | ⟨h, _⟩
          · exact Or.inl h
          · exact Or.inr (Or.inl (List.mem_cons_of_mem _ h))
          · subst h; exact Or.inr (Or.inl (List.mem_cons_self _ _))
        · rw [if_neg hc] at hline
          rcases List.mem_cons.mp hline with h | h
          · exact Or.inr (Or.inr ⟨h, hc⟩)
          · rcases ih _ line h with h2 | h2 | ⟨h2, _⟩
            · exact Or.inl h2
            · exact Or.inr (Or.inl (List.mem_cons_of_mem _ h2))
            · subst h2; exact Or.inr (Or.inl (List.mem_cons_self _ _))

/-- Words produced by `splitWsGo` are nonempty. -/
lemma splitWsGo_ne_empty :
    ∀ (cs acc : List Char), ∀ w ∈ splitWsGo cs acc, w ≠ "" := by
  intro cs
  induction cs with
  | nil =>
      intro acc w hw
      simp only [splitWsGo] at hw
      by_cases ha : acc = []
      · simp [ha] at hw
      · rw [if_neg ha] at hw
        rcases List.mem_singleton.mp hw with rfl
        intro h
        apply ha
        have : acc.reverse = [] := congrArg String.data h
        simpa using this
  | cons c cs ih =>
      intro acc w hw
      simp only [splitWsGo] at hw
      by_cases hc : c.isWhitespace
      · rw [if_pos hc] at hw
        by_cases ha : acc = []
        · rw [if_pos ha] at hw
          exact ih [] w hw
        · rw [if_neg ha] at hw
          rcases List.mem_cons.mp hw with rfl | hmem
          · intro h
            apply ha
            have : acc.reverse = [] := congrArg String.data h
            simpa using this
          · exact ih [] w hmem
      · rw [if_neg hc] at hw
        exact ih _ w hw

/-- Words produced by `pySplit` are nonempty. -/
lemma pySplit_ne_empty (s : String) : ∀ w ∈ pySplit s, w ≠ "" :=
  splitWsGo_ne_empty s.data []

/-- C1: every line of `wrapText` fits within `maxW` or is a single word of
the input wider than `maxW` on its own. -/
theorem wrap_line_width (mw : String → Nat) (text : String) (maxW : Nat)
    (line : String) (hline : line ∈ wrapText mw text maxW) :
    mw line ≤ maxW ∨ (line ∈ pySplit text ∧ maxW < mw line) := by
  rcases wrapLoop_mem mw maxW (pySplit text) "" line hline with h | h | ⟨_, hne⟩
  · exact Or.inl h
  · rcases le_or_lt (mw line) maxW with hle | hlt
    · exact Or.inl hle
    · exact Or.inr ⟨h, hlt⟩
  · exact absurd rfl hne

/-- Witness for C1: wrapping "ab cd ef" at width 5 under the
one-pixel-per-character measure puts "ab cd" on the first line, which
indeed fits. -/
theorem wrap_line_width_witness :
    "ab cd" ∈ wrapText (fun s => s.length) "ab cd ef" 5 ∧
      ((fun s : String => s.length) "ab cd" ≤ 5 ∨
        ("ab cd" ∈ pySplit "ab cd ef" ∧ 5 < (fun s : String => s.length) "ab cd")) :=
  ⟨by decide, wrap_line_width (fun s => s.length) "ab cd ef" 5 "ab cd" (by decide)⟩

/-- A nonempty string stays nonempty after appending. -/
lemma append_ne_empty_left {s : String} (t : String) (hs : s ≠ "") :
    s ++ t ≠ "" := by
  intro h
  apply hs
  have hlen : (s ++ t).length = 0 := by rw [h]; rfl
  rw [String.length_append] at hlen
  have : s.length = 0 := by omega
  cases s with
  | mk data =>
      cases data with
      | nil => rfl
      | cons c cs => simp [String.length, List.length] at this

/-- `joinSp` over a cons with a nonempty tail splits off the head. -/
lemma joinSp_cons_of_ne {l : List String} (c : String) (hl : l ≠ []) :
    joinSp (c :: l) = c ++ " " ++ joinSp l := by
  cases l with
  | nil => exact absurd rfl hl
  | cons b l => rfl

/-- Gluing a two-word line: `joinSp` absorbs a space-joined head. -/
lemma joinSp_glue (c w : String) (rest : List String) :
    joinSp ((c ++ " " ++ w) :: rest) = c ++ " " ++ joinSp (w :: rest) := by
  cases rest with
  | nil => rfl
  | cons b rest =>
      rw [joinSp_cons_of_ne _ (List.cons_ne_nil b rest),
        joinSp_cons_of_ne _ (List.cons_ne_nil b rest)]
      simp [String.append_assoc]

/-- `wrapLoop` never discards the nonempty accumulator: its output is
nonempty. -/
lemma wrapLoop_ne_nil (mw : String → Nat) (maxW : Nat) :
    ∀ (ws : List String) (current : String), (∀ w ∈ ws, w ≠ "") →
      current ≠ "" → wrapLoop mw maxW ws current ≠ [] := by
  intro ws
  induction ws with
  | nil =>
      intro current _ hc
      simp [wrapLoop, hc]
  | cons word ws ih =>
      intro current hws hc
      have hword : word ≠ "" := hws word (List.mem_cons_self _ _)
      have hws2 : ∀ w ∈ ws, w ≠ "" := fun w hw => hws w (List.mem_cons_of_mem _ hw)
      simp only [wrapLoop]
      by_cases hfit : mw (if current = "" then word else current ++ " " ++ word) ≤ maxW
      · rw [if_pos hfit]
        refine ih _ hws2 ?_
        rw [if_neg hc]
        exact append_ne_empty_left _ (append_ne_empty_left _ hc)
      · rw [if_neg hfit, if_neg hc]
        exact List.cons_ne_nil _ _

/-- Joining the lines produced by `wrapLoop` with single spaces
reconstructs the accumulator followed by the remaining words. -/
lemma wrapLoop_join (mw : String → Nat) (maxW : Nat) :
    ∀ (ws : List String) (current : String), (∀ w ∈ ws, w ≠ "") →
      joinSp (wrapLoop mw maxW ws current) =
        if current = "" then joinSp ws else joinSp (current :: ws) := by
  intro ws
  induction ws with
  | nil =>
      intro current _
      by_cases hc : current = "" <;> simp [wrapLoop, hc, joinSp]
  | cons word ws ih =>
      intro current hws
      have hword : word ≠ "" := hws word (List.mem_cons_self _ _)
      have hws2 : ∀ w ∈ ws, w ≠ "" := fun w hw => hws w (List.mem_cons_of_mem _ hw)
      simp only [wrapLoop]
      by_cases hc : current = ""
      · rw [if_pos hc]
        by_cases hfit : mw word ≤ maxW
        · rw [if_pos hfit, ih _ hws2, if_neg hword, if_pos hc]
        · rw [if_neg hfit, if_pos hc, ih _ hws2, if_neg hword, if_pos hc]
      · rw [if_neg hc]
        by_cases hfit : mw (current ++ " " ++ word) ≤ maxW
        · rw [if_pos hfit, ih _ hws2,
            if_neg (append_ne_empty_left _ (append_ne_empty_left _ hc)), if_neg hc,
            joinSp_glue, joinSp_cons_of_ne _ (List.cons_ne_nil word ws)]
        · rw [if_neg hfit, if_neg hc,
            joinSp_cons_of_ne _ (wrapLoop_ne_nil mw maxW ws word hws2 hword),
            ih _ hws2, if_neg hword, if_neg hc,
            joinSp_cons_of_ne _ (List.cons_ne_nil word ws)]

/-- C2: joining the wrapped lines with single spaces reproduces the input
text with its whitespace collapsed; in particular the lines contain
exactly the words of the input, in order (none is split or dropped). -/
theorem wrap_join_roundtrip (mw : String → Nat) (text : String) (maxW : Nat) :
    joinSp (wrapText mw text maxW) = collapseWs text := by
  unfold wrapText collapseWs
  rw [wrapLoop_join mw maxW (pySplit text) "" (pySplit_ne_empty text), if_pos rfl]

/- ---------------------------------------------------------------------
   §2  Adaptive font-fit search
   (`ChiffreGenerator._find_optimal_font_size`, chiffre_generator.py:29-96)

   The rendered bounding box of the fixed input string is abstracted as
   two functions of the font size: `bh size` (= bbox[3] - bbox[1]) and
   `bw size` (= bbox[2] - bbox[0]).  The targets `tH = int(H * ratio_h)`
   and `tW = int(W * ratio_w)` are taken as parameters.  The relative
   deviations `|bh s - tH| / tH` and `|bw s - tW| / tW` are rationals
   with fixed denominators, so the source's float comparisons against
   0.05 and against the best score are modelled exactly over `Nat`:
   `d / t > 1/20  ↔  20 * d > t`, and scores are compared via the common
   numerator `|bh s - tH| * tW + |bw s - tW| * tH` over `tH * tW`.
   --------------------------------------------------------------------- -/

/-- Absolute difference of two naturals, `|a - b|`. -/
def dist0 (a b : Nat) : Nat := (a - b) + (b - a)

/-- The 5% tolerance test of the first scan: true when
`height_diff ≤ 0.05` and `width_diff ≤ 0.05` (the source breaks or skips
on the negation `height_diff > 0.05 or width_diff > 0.05`). -/
def tolB (bh bw : Nat → Nat) (tH tW : Nat) (s : Nat) : Bool :=
  decide (20 * dist0 (bh s) tH ≤ tH) && decide (20 * dist0 (bw s) tW ≤ tW)

/-- Numerator of the summed relative deviation
`|bh s - tH|/tH + |bw s - tW|/tW` over the common denominator `tH * tW`;
comparing these numerators is exactly comparing the scores. -/
def scoreN (bh bw : Nat → Nat) (tH tW : Nat) (s : Nat) : Nat :=
  dist0 (bh s) tH * tW + dist0 (bw s) tW * tH

/-- The fallback test of the second scan: the bounding box fits entirely
within both targets. -/
def fitsB (bh bw : Nat → Nat) (tH tW : Nat) (s : Nat) : Bool :=
  decide (bh s ≤ tH) && decide (bw s ≤ tW)

/-- First scan of `_find_optimal_font_size`: for each size in order, if
the 5% tolerance fails, `continue` while no best exists and `break`
otherwise; if it holds, keep the size when its score beats the best
score (initially infinite, so the first tolerant size is always kept). -/
def fitScan1 (tol : Nat → Bool) (score : Nat → Nat) :
    List Nat → Option Nat → Option Nat
  | [], best => best
  | s :: rest, best =>
      if tol s then
        match best with
        | none => fitScan1 tol score rest (some s)
        | some b =>
            if score s < score b then fitScan1 tol score rest (some s)
            else fitScan1 tol score rest (some b)
      else
        match best with
        | none => fitScan1 tol score rest none
        | some b => some b

/-- Second scan (fallback): keep each size whose box fits both targets,
`break` at the first size that does not. -/
def fitScan2 (fits : Nat → Bool) : List Nat → Option Nat → Option Nat
  | [], best => best
  | s :: rest, best =>
      if fits s then fitScan2 fits rest (some s) else best

/-- Candidate sizes `range(50, 1001, step)` of the two scans. -/
def sizeGrid (step count : Nat) : List Nat :=
  (List.range count).map (fun i => 50 + step * i)

/-- Sizes 50, 55, ..., 1000 of the first scan (`range(50, 1001, 5)`). -/
def grid5 : List Nat := sizeGrid 5 191

/-- Sizes 50, 60, ..., 1000 of the second scan (`range(50, 1001, 10)`). -/
def grid10 : List Nat := sizeGrid 10 96

/-- `ChiffreGenerator._find_optimal_font_size`, returning the chosen
size: first scan, then the fallback scan if no tolerant size was found,
then the hard-coded default size 350. -/
def findOptimalFontSize (bh bw : Nat → Nat) (tH tW : Nat) : Nat :=
  match fitScan1 (tolB bh bw tH tW) (scoreN bh bw tH tW) grid5 none with
  | some s => s
  | none =>
      match fitScan2 (fitsB bh bw tH tW) grid10 none with
      | some s => s
      | none => 350

/-- The size grids are sorted in increasing order. -/
lemma sizeGrid_pairwise (step count : Nat) :
    (sizeGrid step count).Pairwise (· ≤ ·) := by
  unfold sizeGrid
  rw [List.pairwise_map]
  refine (List.pairwise_lt_range count).imp ?_
  intro a b h
  have := Nat.mul_le_mul_left step (le_of_lt h)
  omega

/-- Every candidate size lies between 50 and `50 + step * (count - 1)`. -/
lemma sizeGrid_mem_le {step count s : Nat} (hs : s ∈ sizeGrid step count) :
    50 ≤ s ∧ s ≤ 50 + step * (count - 1) := by
  unfold sizeGrid at hs
  rcases List.mem_map.mp hs with ⟨i, hi, rfl⟩
  have := List.mem_range.mp hi
  constructor
  · omega
  · have : step * i ≤ step * (count - 1) := Nat.mul_le_mul_left step (by omega)
    omega

/-- Once a tolerant size has been seen, a later size failing the 5%
tolerance can only fail by being too large on that axis (had it been too
small, monotonicity would contradict the earlier tolerant size), so
every still-later size fails as well.  This is the fact that makes the
source's early `break` lose no tolerant candidates. -/
lemma tolB_break_persists {bh bw : Nat → Nat} {tH tW : Nat}
    (hmh : Monotone bh) (hmw : Monotone bw) {s0 s1 s2 : Nat}
    (h01 : s0 ≤ s1) (h12 : s1 ≤ s2)
    (ht0 : tolB bh bw tH tW s0 = true) (ht1 : tolB bh bw tH tW s1 = false) :
    tolB bh bw tH tW s2 = false := by
  simp only [tolB, Bool.and_eq_true, decide_eq_true_eq, Bool.and_eq_false_iff,
    decide_eq_false_iff_not, not_le] at *
  have hh01 : bh s0 ≤ bh s1 := hmh h01
  have hh12 : bh s1 ≤ bh s2 := hmh h12
  have hw01 : bw s0 ≤ bw s1 := hmw h01
  have hw12 : bw s1 ≤ bw s2 := hmw h12
  rcases ht1 with h | h
  · exact Or.inl (by simp only [dist0] at *; omega)
  · exact Or.inr (by simp only [dist0] at *; omega)

/-- Under monotone measures, a size whose box does not fit both targets
is followed only by sizes that do not fit either. -/
lemma fitsB_break_persists {bh bw : Nat → Nat} {tH tW : Nat}
    (hmh : Monotone bh) (hmw : Monotone bw) {s1 s2 : Nat} (h12 : s1 ≤ s2)
    (hf : fitsB bh bw tH tW s1 = false) : fitsB bh bw tH tW s2 = false := by
  simp only [fitsB, Bool.and_eq_false_iff, decide_eq_false_iff_not, not_le] at *
  rcases hf with h | h
  · exact Or.inl (lt_of_lt_of_le h (hmh h12))
  · exact Or.inr (lt_of_lt_of_le h (hmw h12))

/-- First scan, running best present: the scan returns a tolerant size
whose score is at most the best's and at most that of every tolerant
size in the remaining (sorted) stream — the early break is harmless
because breaks persist. -/
lemma fitScan1_some {tol : Nat → Bool} {score : Nat → Nat}
    (hpers : ∀ s0 s1 s2, s0 ≤ s1 → s1 ≤ s2 → tol s0 = true →
      tol s1 = false → tol s2 = false) :
    ∀ (L : List Nat), L.Pairwise (· ≤ ·) → ∀ s0, tol s0 = true →
      (∀ x ∈ L, s0 ≤ x) →
      ∃ r, fitScan1 tol score L (some s0) = some r ∧ tol r = true ∧
        (r = s0 ∨ r ∈ L) ∧ score r ≤ score s0 ∧
        ∀ x ∈ L, tol x = true → score r ≤ score x := by
  intro L
  induction L with
  | nil =>
      intro _ s0 ht0 _
      exact ⟨s0, rfl, ht0, Or.inl rfl, le_refl _, by simp⟩
  | cons s rest ih =>
      intro hsort s0 ht0 hle
      have hs0s : s0 ≤ s := hle s (List.mem_cons_self _ _)
      have hsrest : ∀ x ∈ rest, s ≤ x := (List.pairwise_cons.mp hsort).1
      have hrest : rest.Pairwise (· ≤ ·) := (List.pairwise_cons.mp hsort).2
      by_cases hts : tol s = true
      · simp only [fitScan1, hts, if_true]
        by_cases hsc : score s < score s0
        · rw [if_pos hsc]
          rcases ih hrest s hts hsrest with ⟨r, hr, htr, hmem, hsle, hall⟩
          refine ⟨r, hr, htr, ?_, le_of_lt (lt_of_le_of_lt hsle hsc), ?_⟩
          · rcases hmem with rfl | h
            · exact Or.inr (List.mem_cons_self _ _)
            · exact Or.inr (List.mem_cons_of_mem _ h)
          · intro x hx htx
            rcases List.mem_cons.mp hx with rfl | h
            · exact hsle
            · exact hall x h htx
        · rw [if_neg hsc]
          rcases ih hrest s0 ht0 (fun x hx => le_trans hs0s (hsrest x hx)) with
            ⟨r, hr, htr, hmem, hsle, hall⟩
          refine ⟨r, hr, htr, ?_, hsle, ?_⟩
          · rcases hmem with rfl | h
            · exact Or.inl rfl
            · exact Or.inr (List.mem_cons_of_mem _ h)
          · intro x hx htx
            rcases List.mem_cons.mp hx with rfl | h
            · exact le_trans hsle (le_of_not_lt hsc)
            · exact hall x h htx
      · have hts2 : tol s = false := Bool.eq_false_iff.mpr hts
        simp only [fitScan1, hts2, Bool.false_eq_true, if_false]
        refine ⟨s0, rfl, ht0, Or.inl rfl, le_refl _, ?_⟩
        intro x hx htx
        rcases List.mem_cons.mp hx with rfl | h
        · exact absurd htx (by simp [hts2])
        · have : tol x = false := hpers s0 s x hs0s (hsrest x h) ht0 hts2
          exact absurd htx (by simp [this])

/-- First scan with no tolerant size in the stream returns nothing. -/
lemma fitScan1_none {tol : Nat → Bool} {score : Nat → Nat} :
    ∀ (L : List Nat), (∀ x ∈ L, tol x = false) →
      fitScan1 tol score L none = none := by
  intro L
  induction L with
  | nil => intro _; rfl
  | cons s rest ih =>
      intro hall
      have hs : tol s = false := hall s (List.mem_cons_self _ _)
      simp only [fitScan1, hs, Bool.false_eq_true, if_false]
      exact ih (fun x hx => hall x (List.mem_cons_of_mem _ hx))

/-- First scan from an empty best: if the (sorted) stream holds a
tolerant size, the scan returns a tolerant member of the stream whose
score is minimal among all tolerant members. -/
lemma fitScan1_found {tol : Nat → Bool} {score : Nat → Nat}
    (hpers : ∀ s0 s1 s2, s0 ≤ s1 → s1 ≤ s2 → tol s0 = true →
      tol s1 = false → tol s2 = false) :
    ∀ (L : List Nat), L.Pairwise (· ≤ ·) → (∃ x ∈ L, tol x = true) →
      ∃ r, fitScan1 tol score L none = some r ∧ tol r = true ∧ r ∈ L ∧
        ∀ x ∈ L, tol x = true → score r ≤ score x := by
  intro L
  induction L with
  | nil => rintro _ ⟨x, hx, _⟩; exact absurd hx (List.not_mem_nil x)
  | cons s rest ih =>
      intro hsort hex
      have hsrest : ∀ x ∈ rest, s ≤ x := (List.pairwise_cons.mp hsort).1
      have hrest : rest.Pairwise (· ≤ ·) := (List.pairwise_cons.mp hsort).2
      by_cases hts : tol s = true
      · simp only [fitScan1, hts, if_true]
        rcases fitScan1_some hpers rest hrest s hts hsrest with
          ⟨r, hr, htr, hmem, hsle, hall⟩
        refine ⟨r, hr, htr, ?_, ?_⟩
        · rcases hmem with rfl | h
          · exact List.mem_cons_self _ _
          · exact List.mem_cons_of_mem _ h
        · intro x hx htx
          rcases List.mem_cons.mp hx with rfl | h
          · exact hsle
          · exact hall x h htx
      · have hts2 : tol s = false := Bool.eq_false_iff.mpr hts
        simp only [fitScan1, hts2, Bool.false_eq_true, if_false]
        rcases hex with ⟨x, hx, htx⟩
        rcases List.mem_cons.mp hx with rfl | h
        · exact absurd htx hts
        · rcases ih hrest ⟨x, h, htx⟩ with ⟨r, hr, htr, hmem, hall⟩
          refine ⟨r, hr, htr, List.mem_cons_of_mem _ hmem, ?_⟩
          intro y hy hty
          rcases List.mem_cons.mp hy with rfl | h2
          · exact absurd hty (by simp [hts2])
          · exact hall y h2 hty

/-- Second scan over a stream with no fitting size returns its incoming
best unchanged (the scan breaks at the head). -/
lemma fitScan2_none {fits : Nat → Bool} :
    ∀ (L : List Nat) (b : Option Nat), (∀ x ∈ L, fits x = false) →
      fitScan2 fits L b = b := by
  intro L b hall
  cases L with
  | nil => rfl
  | cons s rest =>
      have hs : fits s = false := hall s (List.mem_cons_self _ _)
      simp [fitScan2, hs]

/-- Second scan: when non-fits persist and some member fits, the scan
returns the largest fitting member of the (sorted) stream. -/
lemma fitScan2_found {fits : Nat → Bool}
    (hpers : ∀ s1 s2, s1 ≤ s2 → fits s1 = false → fits s2 = false) :
    ∀ (L : List Nat), L.Pairwise (· ≤ ·) → (∃ x ∈ L, fits x = true) →
      ∀ b, ∃ r, fitScan2 fits L b = some r ∧ fits r = true ∧ r ∈ L ∧
        ∀ x ∈ L, fits x = true → x ≤ r := by
  intro L
  induction L with
  | nil => rintro _ ⟨x, hx, _⟩; exact absurd hx (List.not_mem_nil x)
  | cons s rest ih =>
      intro hsort hex b
      have hsrest : ∀ x ∈ rest, s ≤ x := (List.pairwise_cons.mp hsort).1
      have hrest : rest.Pairwise (· ≤ ·) := (List.pairwise_cons.mp hsort).2
      by_cases hfs : fits s = true
      · simp only [fitScan2, hfs, if_true]
        by_cases hex2 : ∃ x ∈ rest, fits x = true
        · rcases ih hrest hex2 (some s) with ⟨r, hr, hfr, hmem, hall⟩
          refine ⟨r, hr, hfr, List.mem_cons_of_mem _ hmem, ?_⟩
          intro x hx hfx
          rcases List.mem_cons.mp hx with rfl | h
          · exact hsrest r hmem
          · exact hall x h hfx
        · have hall2 : ∀ x ∈ rest, fits x = false := by
            intro x hx
            cases hfx : fits x with
            | false => rfl
            | true => exact absurd ⟨x, hx, hfx⟩ hex2
          refine ⟨s, by rw [fitScan2_none rest (some s) hall2], hfs,
            List.mem_cons_self _ _, ?_⟩
          intro x hx hfx
          rcases List.mem_cons.mp hx with rfl | h
          · exact le_refl _
          · exact absurd hfx (by simp [hall2 x h])
      · have hfs2 : fits s = false := Bool.eq_false_iff.mpr hfs
        rcases hex with ⟨x, hx, hfx⟩
        rcases List.mem_cons.mp hx with rfl | h
        · exact absurd hfx hfs
        · have : fits x = false := hpers s x (hsrest x h) hfs2
          exact absurd hfx (by simp [this])

/-- C3: the adaptive font-fit search (a total function, hence
terminating) returns, assuming the text measures grow monotonically with
the font size (true of font rasterization) and positive targets: a size
at most the hard maximum bound 1000; the scanned candidate of minimum
summed relative deviation when some scanned size meets the 5% tolerance
on both axes; otherwise the largest scanned size whose box fits within
both targets; otherwise the hard-coded default 350. -/
theorem font_fit_three_tier (bh bw : Nat → Nat) (tH tW : Nat)
    (hmh : Monotone bh) (hmw : Monotone bw) (htH : 0 < tH) (htW : 0 < tW) :
    findOptimalFontSize bh bw tH tW ≤ 1000 ∧
    ((∃ s ∈ grid5, tolB bh bw tH tW s = true) →
      findOptimalFontSize bh bw tH tW ∈ grid5 ∧
      tolB bh bw tH tW (findOptimalFontSize bh bw tH tW) = true ∧
      ∀ s ∈ grid5, tolB bh bw tH tW s = true →
        scoreN bh bw tH tW (findOptimalFontSize bh bw tH tW) ≤
          scoreN bh bw tH tW s) ∧
    ((∀ s ∈ grid5, tolB bh bw tH tW s = false) →
      (∃ s ∈ grid10, fitsB bh bw tH tW s = true) →
      findOptimalFontSize bh bw tH tW ∈ grid10 ∧
      fitsB bh bw tH tW (findOptimalFontSize bh bw tH tW) = true ∧
      ∀ s ∈ grid10, fitsB bh bw tH tW s = true →
        s ≤ findOptimalFontSize bh bw tH tW) ∧
    ((∀ s ∈ grid5, tolB bh bw tH tW s = false) →
      (∀ s ∈ grid10, fitsB bh bw tH tW s = false) →
      findOptimalFontSize bh bw tH tW = 350) := by
  have hpers1 : ∀ s0 s1 s2, s0 ≤ s1 → s1 ≤ s2 → tolB bh bw tH tW s0 = true →
      tolB bh bw tH tW s1 = false → tolB bh bw tH tW s2 = false :=
    fun _ _ _ h01 h12 ht0 ht1 => tolB_break_persists hmh hmw h01 h12 ht0 ht1
  have hpers2 : ∀ s1 s2, s1 ≤ s2 → fitsB bh bw tH tW s1 = false →
      fitsB bh bw tH tW s2 = false :=
    fun _ _ h12 hf => fitsB_break_persists hmh hmw h12 hf
  by_cases hex : ∃ s ∈ grid5, tolB bh bw tH tW s = true
  · rcases @fitScan1_found (tolB bh bw tH tW) (scoreN bh bw tH tW) hpers1 grid5
      (sizeGrid_pairwise 5 191) hex with ⟨r, hr, htr, hmem, hall⟩
    have hres : findOptimalFontSize bh bw tH tW = r := by
      unfold findOptimalFontSize
      rw [hr]
    rw [hres]
    refine ⟨?_, fun _ => ⟨hmem, htr, hall⟩, ?_, ?_⟩
    · have := sizeGrid_mem_le hmem
      omega
    · intro hnone _
      exact absurd htr (by simp [hnone r hmem])
    · intro hnone _
      exact absurd htr (by simp [hnone r hmem])
  · have hallf : ∀ s ∈ grid5, tolB bh bw tH tW s = false := by
      intro s hs
      cases ht : tolB bh bw tH tW s with
      | false => rfl
      | true => exact absurd ⟨s, hs, ht⟩ hex
    have h1 : fitScan1 (tolB bh bw tH tW) (scoreN bh bw tH tW) grid5 none = none :=
      fitScan1_none grid5 hallf
    by_cases hex2 : ∃ s ∈ grid10, fitsB bh bw tH tW s = true
    · rcases fitScan2_found hpers2 grid10 (sizeGrid_pairwise 10 96) hex2 none with
        ⟨r, hr, hfr, hmem, hall⟩
      have hres : findOptimalFontSize bh bw tH tW = r := by
        unfold findOptimalFontSize
        rw [h1, hr]
      rw [hres]
      refine ⟨?_, ?_, fun _ _ => ⟨hmem, hfr, hall⟩, ?_⟩
      · have := sizeGrid_mem_le hmem
        omega
      · rintro ⟨s, hs, hts⟩
        exact absurd hts (by simp [hallf s hs])
      · intro _ hnone
        exact absurd hfr (by simp [hnone r hmem])
    · have hallf2 : ∀ s ∈ grid10, fitsB bh bw tH tW s = false := by
        intro s hs
        cases hf : fitsB bh bw tH tW s with
        | false => rfl
        | true => exact absurd ⟨s, hs, hf⟩ hex2
      have hres : findOptimalFontSize bh bw tH tW = 350 := by
        unfold findOptimalFontSize
        rw [h1, fitScan2_none grid10 none hallf2]
      rw [hres]
      refine ⟨by omega, ?_, ?_, fun _ _ => rfl⟩
      · rintro ⟨s, hs, hts⟩
        exact absurd hts (by simp [hallf s hs])
      · rintro _ ⟨s, hs, hfs⟩
        exact absurd hfs (by simp [hallf2 s hs])

/-- Witness for C3: with the identity measures and targets 500 × 500 the
search's hypotheses hold and the returned size is within the hard bound. -/
theorem font_fit_three_tier_witness :
    Monotone (fun s : Nat => s) ∧ (0 : Nat) < 500 ∧
      findOptimalFontSize (fun s => s) (fun s => s) 500 500 ≤ 1000 :=
  ⟨fun _ _ h => h, by decide,
    (font_fit_three_tier (fun s => s) (fun s => s) 500 500
      (fun _ _ h => h) (fun _ _ h => h) (by decide) (by decide)).1⟩

/- ---------------------------------------------------------------------
   §3  Quote (Phrase) card layout
   (`PhraseGenerator.__init__` phrase_generator.py:28-32 and
    `PhraseGenerator.generate` phrase_generator.py:135-151)
   --------------------------------------------------------------------- -/

/-- Canvas width `IMAGE_SIZE[0]` (config/settings.py). -/
def canvasW : Nat := 1080

/-- Canvas height `IMAGE_SIZE[1]` (config/settings.py). -/
def canvasH : Nat := 1350

/-- `self.card_padding_h = 40` (horizontal padding, `__init__`). -/
def cardPaddingH : Nat := 40

/-- `self.card_padding_v = 30` (vertical padding, `__init__`). -/
def cardPaddingV : Nat := 30

/-- `self.card_width = int(self.width * 0.80)`: in float arithmetic
`1080 * 0.80 = 864.0000000000001`, truncated to 864, which equals the
exact `1080 * 80 / 100`. -/
def cardWidth : Nat := 1080 * 80 / 100

/-- `header_height = 80` (`generate`). -/
def headerHeight : Nat := 80

/-- `text_area_padding = 40` (`generate`). -/
def textAreaPadding : Nat := 40

/-- The reserved bottom tagline band: `available_height = self.height - 150`. -/
def taglineBand : Nat := 150

/-- A card rectangle: position and size of the rounded white card.  `y`
is an `Int` because `(available_height - card_height) // 2` can be
negative for very tall cards (Python floor division, `Int.fdiv`). -/
structure CardRect where
  x : Nat
  y : Int
  width : Nat
  height : Nat
deriving DecidableEq, Repr

/-- `calculate_text_height`: the wrapped-text stack height
`line_height * len(lines)` where the lines wrap at
`card_width - 2 * card_padding_h` (`text_max_width`, generate:136).
`lineHeight` abstracts `int(bbox("Ay") height * 1.35)`. -/
def phraseTextTotalHeight (mw : String → Nat) (lineHeight : Nat)
    (text : String) : Nat :=
  lineHeight * (wrapText mw text (cardWidth - 2 * cardPaddingH)).length

/-- The card rectangle computed by `PhraseGenerator.generate`
(lines 141-151): content-driven height, fixed width, centered `x`, `y`
centering the card in the space above the tagline band. -/
def phraseCardRect (textTotalHeight : Nat) : CardRect :=
  let cardHeight := headerHeight + textTotalHeight + textAreaPadding + cardPaddingV
  let cardX := (canvasW - cardWidth) / 2
  let availableHeight := canvasH - taglineBand
  let cardY := ((availableHeight : Int) - cardHeight).fdiv 2
  ⟨cardX, cardY, cardWidth, cardHeight⟩

/-- C4: for every content record (the wrapped-text stack height of its
text under any measure), the Quote card rectangle satisfies the height
formula, has width 0.80·W exactly, is horizontally centered (within one
pixel — here exactly), and is vertically centered in the space above
the reserved tagline band. -/
theorem phrase_card_layout (mw : String → Nat) (lineHeight : Nat)
    (text : String) :
    (phraseCardRect (phraseTextTotalHeight mw lineHeight text)).height =
        headerHeight + phraseTextTotalHeight mw lineHeight text +
          textAreaPadding + cardPaddingV ∧
    (phraseCardRect (phraseTextTotalHeight mw lineHeight text)).width * 100 =
        80 * canvasW ∧
    (phraseCardRect (phraseTextTotalHeight mw lineHeight text)).x +
        (phraseCardRect (phraseTextTotalHeight mw lineHeight text)).width / 2 =
        canvasW / 2 ∧
    (phraseCardRect (phraseTextTotalHeight mw lineHeight text)).y =
        (((canvasH - taglineBand : Nat) : Int) -
          (phraseCardRect (phraseTextTotalHeight mw lineHeight text)).height).fdiv 2 := by
  refine ⟨rfl, ?_, ?_, ?_⟩
  · simp only [phraseCardRect]
    decide
  · simp only [phraseCardRect]
    decide
  · simp only [phraseCardRect]

/- ---------------------------------------------------------------------
   §4  Gradient rasters
   (`BaseGenerator.create_gradient`, base_generator.py:38-65, and
    `ChiffreGenerator._create_vertical_gradient`,
    chiffre_generator.py:144-162)
   --------------------------------------------------------------------- -/

/-- An RGB color triple.  Channels are `Int` so the interpolation
`c1 + (c2 - c1) * t` can be written as in the source; the palette only
produces values in [0, 255]. -/
structure RGB where
  r : Int
  g : Int
  b : Int
deriving DecidableEq, Repr

/-- One interpolated channel of `create_gradient`:
`int(c1 + (c2 - c1) * ratio)` with `ratio = i / n` — in exact
arithmetic `(c1 * n + (c2 - c1) * i) / n`.  Python `int()` truncates
toward zero; the interpolated value lies between `c1` and `c2`, hence is
nonnegative for channels in [0, 255], where truncation, floor and
Euclidean division agree. -/
def gradChannel (c1 c2 : Int) (i n : Nat) : Int :=
  (c1 * n + (c2 - c1) * i) / n

/-- Gradient direction of `create_gradient`. -/
inductive GradDirection
  | vertical
  | horizontal
deriving DecidableEq, Repr

/-- The pixel `(x, y)` painted by `BaseGenerator.create_gradient`: every
pixel of row `i = y` (vertical) resp. column `i = x` (horizontal) gets
the channels interpolated at `ratio = i / height` resp. `i / width`. -/
def createGradientPixel (width height : Nat) (cs ce : RGB)
    (dir : GradDirection) (x y : Nat) : RGB :=
  match dir with
  | .vertical =>
      ⟨gradChannel cs.r ce.r y height, gradChannel cs.g ce.g y height,
        gradChannel cs.b ce.b y height⟩
  | .horizontal =>
      ⟨gradChannel cs.r ce.r x width, gradChannel cs.g ce.g x width,
        gradChannel cs.b ce.b x width⟩

/-- The divisor `max(height - 1, 1)` of the chiffre gradient ratio. -/
def chiffreDenom (height : Nat) : Nat := max (height - 1) 1

/-- One channel of `ChiffreGenerator._create_vertical_gradient`, which
instead divides by `max(height - 1, 1)` so the last row reaches the end
color exactly. -/
def chiffreGradChannel (c1 c2 : Int) (i height : Nat) : Int :=
  (c1 * (chiffreDenom height : Int) + (c2 - c1) * i) / (chiffreDenom height : Int)

/-- The pixel `(x, y)` of the chiffre vertical gradient raster. -/
def chiffreVerticalGradientPixel (width height : Nat) (cs ce : RGB)
    (x y : Nat) : RGB :=
  ⟨chiffreGradChannel cs.r ce.r y height, chiffreGradChannel cs.g ce.g y height,
    chiffreGradChannel cs.b ce.b y height⟩

/-- Counterexample to C5 as stated: for `create_gradient` with width 1,
height 2, start color (0,0,0) and end color (255,0,255), the terminal
row (y = 1) has red channel `int(0 + 255 * (1/2)) = 127`, which is 128
away from the end color's 255 — not within ±1. -/
theorem gradient_boundary_counterexample :
    (createGradientPixel 1 2 ⟨0, 0, 0⟩ ⟨255, 0, 255⟩ .vertical 0 1).r = 127 ∧
      ¬ (((createGradientPixel 1 2 ⟨0, 0, 0⟩ ⟨255, 0, 255⟩ .vertical 0 1).r -
          255).natAbs ≤ 1) := by
  constructor
  · decide
  · decide

/-- A gradient channel at `i = 0` yields the start channel exactly. -/
lemma gradChannel_zero (c1 c2 : Int) (n : Nat) (hn : 0 < n) :
    gradChannel c1 c2 0 n = c1 := by
  unfold gradChannel
  have hne : (n : Int) ≠ 0 := by exact_mod_cast hn.ne'
  have hnum : c1 * (n : Int) + (c2 - c1) * ((0 : Nat) : Int) = c1 * n := by
    push_cast
    ring
  rw [hnum, Int.mul_ediv_cancel c1 hne]

/-- A gradient channel at the terminal index `i = n - 1` differs from the
end channel by at most 1, provided the channel difference is at most `n`
(the source divides `i` by `n`, not `n - 1`, so the last step stops
`(c2 - c1) / n` short of the end color). -/
lemma gradChannel_last (c1 c2 : Int) (n : Nat) (hn : 0 < n)
    (hd : (c2 - c1).natAbs ≤ n) :
    (gradChannel c1 c2 (n - 1) n - c2).natAbs ≤ 1 := by
  unfold gradChannel
  have hne : (n : Int) ≠ 0 := by exact_mod_cast hn.ne'
  have hn2 : (0 : Int) < n := by exact_mod_cast hn
  have hcast : ((n - 1 : Nat) : Int) = (n : Int) - 1 := by
    push_cast [hn]
    ring
  rw [hcast]
  have hnum : c1 * n + (c2 - c1) * ((n : Int) - 1) = -(c2 - c1) + c2 * n := by
    ring
  rw [hnum, Int.add_mul_ediv_right _ _ hne]
  have hub : (-(c2 - c1)) / (n : Int) ≤ (n : Int) / (n : Int) :=
    Int.ediv_le_ediv hn2 (by omega)
  have hlb : (-(n : Int)) / (n : Int) ≤ (-(c2 - c1)) / (n : Int) :=
    Int.ediv_le_ediv hn2 (by omega)
  have h1 : (n : Int) / (n : Int) = 1 := Int.ediv_self hne
  have h2 : (-(n : Int)) / (n : Int) = -1 := by
    have hneg : (-(n : Int)) = (-1) * n := by ring
    rw [hneg]
    exact Int.mul_ediv_cancel _ hne
  omega

/-- A chiffre gradient channel at `i = 0` yields the start channel. -/
lemma chiffreGradChannel_zero (c1 c2 : Int) (h : Nat) :
    chiffreGradChannel c1 c2 0 h = c1 := by
  unfold chiffreGradChannel
  have hpos : 1 ≤ chiffreDenom h := le_max_right _ _
  have hne : ((chiffreDenom h : Nat) : Int) ≠ 0 := by omega
  have hnum : c1 * ((chiffreDenom h : Nat) : Int) +
      (c2 - c1) * ((0 : Nat) : Int) = c1 * (chiffreDenom h : Int) := by
    push_cast
    ring
  rw [hnum, Int.mul_ediv_cancel c1 hne]

/-- A chiffre gradient channel at the terminal row `i = h - 1` yields the
end channel exactly when `h ≥ 2` (the divisor is `h - 1`). -/
lemma chiffreGradChannel_last (c1 c2 : Int) (h : Nat) (hh : 2 ≤ h) :
    chiffreGradChannel c1 c2 (h - 1) h = c2 := by
  unfold chiffreGradChannel
  have hm : chiffreDenom h = h - 1 := by
    unfold chiffreDenom
    omega
  rw [hm]
  have hne : ((h - 1 : Nat) : Int) ≠ 0 := by omega
  have hnum : c1 * ((h - 1 : Nat) : Int) + (c2 - c1) * ((h - 1 : Nat) : Int) =
      c2 * ((h - 1 : Nat) : Int) := by ring
  rw [hnum, Int.mul_ediv_cancel _ hne]

/-- C5 amended: pixel (0,0) of `create_gradient` equals the start color
exactly for both directions; the terminal row (vertical) resp. column
(horizontal) is within ±1 of the end color per channel provided each
channel difference is at most the pixel count of that axis (the source
divides by `height`/`width`, not by `height-1`/`width-1`, so the claim
fails for small rasters, cf. the counterexample); the chiffre vertical
gradient starts at the start color and reaches the end color exactly
whenever the raster is at least two rows tall. -/
theorem gradient_boundary (w h : Nat) (cs ce : RGB) (x y : Nat)
    (hw : 0 < w) (hh : 0 < h) :
    (∀ dir, createGradientPixel w h cs ce dir 0 0 = cs) ∧
    ((ce.r - cs.r).natAbs ≤ h → (ce.g - cs.g).natAbs ≤ h →
      (ce.b - cs.b).natAbs ≤ h →
      ((createGradientPixel w h cs ce .vertical x (h - 1)).r - ce.r).natAbs ≤ 1 ∧
      ((createGradientPixel w h cs ce .vertical x (h - 1)).g - ce.g).natAbs ≤ 1 ∧
      ((createGradientPixel w h cs ce .vertical x (h - 1)).b - ce.b).natAbs ≤ 1) ∧
    ((ce.r - cs.r).natAbs ≤ w → (ce.g - cs.g).natAbs ≤ w →
      (ce.b - cs.b).natAbs ≤ w →
      ((createGradientPixel w h cs ce .horizontal (w - 1) y).r - ce.r).natAbs ≤ 1 ∧
      ((createGradientPixel w h cs ce .horizontal (w - 1) y).g - ce.g).natAbs ≤ 1 ∧
      ((createGradientPixel w h cs ce .horizontal (w - 1) y).b - ce.b).natAbs ≤ 1) ∧
    chiffreVerticalGradientPixel w h cs ce x 0 = cs ∧
    (2 ≤ h → chiffreVerticalGradientPixel w h cs ce x (h - 1) = ce) := by
  obtain ⟨r1, g1, b1⟩ := cs
  obtain ⟨r2, g2, b2⟩ := ce
  refine ⟨?_, ?_, ?_, ?_, ?_⟩
  · intro dir
    cases dir <;>
      simp [createGradientPixel, gradChannel_zero _ _ _ hh,
        gradChannel_zero _ _ _ hw]
  · intro h1 h2 h3
    exact ⟨gradChannel_last _ _ _ hh h1, gradChannel_last _ _ _ hh h2,
      gradChannel_last _ _ _ hh h3⟩
  · intro h1 h2 h3
    exact ⟨gradChannel_last _ _ _ hw h1, gradChannel_last _ _ _ hw h2,
      gradChannel_last _ _ _ hw h3⟩
  · simp [chiffreVerticalGradientPixel, chiffreGradChannel_zero]
  · intro hh2
    simp [chiffreVerticalGradientPixel, chiffreGradChannel_last _ _ _ hh2]

/-- Witness for C5 amended: a 3×3 gradient from (0,0,0) to (3,0,3)
satisfies every hypothesis, and its terminal row is within ±1 of the
end color. -/
theorem gradient_boundary_witness :
    (0 < 3 ∧ ((3 : Int) - 0).natAbs ≤ 3) ∧
      ((createGradientPixel 3 3 ⟨0, 0, 0⟩ ⟨3, 0, 3⟩ .vertical 0 2).r - 3).natAbs ≤ 1 :=
  ⟨⟨by decide, by decide⟩,
    ((gradient_boundary 3 3 ⟨0, 0, 0⟩ ⟨3, 0, 3⟩ 0 0 (by decide) (by decide)).2.1
      (by decide) (by decide) (by decide)).1⟩

/- ---------------------------------------------------------------------
   §5  Quote template diagonal gradient background
   (`PhraseGenerator.create_gradient_background`, phrase_generator.py:34-54)
   --------------------------------------------------------------------- -/

/-- Python `int()` applied to an exact rational: truncation toward zero. -/
def pyInt (q : ℚ) : Int := Int.tdiv q.num q.den

/-- The per-pixel ratio of `create_gradient_background`:
`ratio = x / self.width * 0.3 + y / self.height * 0.7`, then
`ratio = min(1.0, max(0.0, ratio))`.  The float constants 0.3 and 0.7
are modelled as the exact rationals they denote in the source text. -/
def phraseMix (x y : Nat) : ℚ :=
  min 1 (max 0 ((x : ℚ) / (canvasW : ℚ) * (3 / 10) +
    (y : ℚ) / (canvasH : ℚ) * (7 / 10)))

/-- One channel of the diagonal background pixel:
`int(c1 + (c2 - c1) * ratio)`. -/
def phraseGradChannel (c1 c2 : Int) (x y : Nat) : Int :=
  pyInt ((c1 : ℚ) + ((c2 : ℚ) - (c1 : ℚ)) * phraseMix x y)

/-- The pixel `(x, y)` painted by `create_gradient_background`. -/
def phraseGradientPixel (cs ce : RGB) (x y : Nat) : RGB :=
  ⟨phraseGradChannel cs.r ce.r x y, phraseGradChannel cs.g ce.g x y,
    phraseGradChannel cs.b ce.b x y⟩

/-- Modelled from the spec sentence of C6: linear interpolation between
the channels at `ratio = 0.3·(x/W) + 0.7·(y/H)` clamped to [0,1], each
channel truncated to an integer. -/
def specDiagChannel (c1 c2 : Int) (x y : Nat) : Int :=
  pyInt ((c1 : ℚ) + ((c2 : ℚ) - (c1 : ℚ)) *
    (min 1 (max 0 ((3 / 10) * ((x : ℚ) / (canvasW : ℚ)) +
      (7 / 10) * ((y : ℚ) / (canvasH : ℚ))))))

/-- Modelled from the spec sentence of C6: the spec-side pixel. -/
def specDiagPixel (cs ce : RGB) (x y : Nat) : RGB :=
  ⟨specDiagChannel cs.r ce.r x y, specDiagChannel cs.g ce.g x y,
    specDiagChannel cs.b ce.b x y⟩

/-- The two ratio expressions agree, and on canvas-interior pixels the
clamp to [0,1] is a no-op. -/
lemma phraseMix_eq (x y : Nat) (hx : x < canvasW) (hy : y < canvasH) :
    phraseMix x y =
      (3 / 10) * ((x : ℚ) / (canvasW : ℚ)) +
        (7 / 10) * ((y : ℚ) / (canvasH : ℚ)) := by
  unfold phraseMix
  have hx1 : (x : ℚ) / (canvasW : ℚ) ≤ 1 := by
    rw [div_le_one (by norm_num [canvasW])]
    have : (x : ℚ) < (canvasW : ℚ) := by exact_mod_cast hx
    linarith
  have hy1 : (y : ℚ) / (canvasH : ℚ) ≤ 1 := by
    rw [div_le_one (by norm_num [canvasH])]
    have : (y : ℚ) < (canvasH : ℚ) := by exact_mod_cast hy
    linarith
  have hx0 : (0 : ℚ) ≤ (x : ℚ) / (canvasW : ℚ) :=
    div_nonneg (by positivity) (by norm_num [canvasW])
  have hy0 : (0 : ℚ) ≤ (y : ℚ) / (canvasH : ℚ) :=
    div_nonneg (by positivity) (by norm_num [canvasH])
  have hcomm : (x : ℚ) / (canvasW : ℚ) * (3 / 10) +
      (y : ℚ) / (canvasH : ℚ) * (7 / 10) =
      (3 / 10) * ((x : ℚ) / (canvasW : ℚ)) +
        (7 / 10) * ((y : ℚ) / (canvasH : ℚ)) := by ring
  rw [hcomm, max_eq_right (by linarith), min_eq_right (by linarith)]

/-- C6: on every canvas pixel, the diagonal background of the Quote
template equals the spec's clamped row/column-weighted interpolation,
channel by channel; the clamp is in fact a no-op on the canvas. -/
theorem phrase_diagonal_gradient (cs ce : RGB) (x y : Nat)
    (hx : x < canvasW) (hy : y < canvasH) :
    phraseGradientPixel cs ce x y = specDiagPixel cs ce x y ∧
      phraseMix x y =
        (3 / 10) * ((x : ℚ) / (canvasW : ℚ)) +
          (7 / 10) * ((y : ℚ) / (canvasH : ℚ)) := by
  have hmix := phraseMix_eq x y hx hy
  have hAB : (x : ℚ) / (canvasW : ℚ) * (3 / 10) +
      (y : ℚ) / (canvasH : ℚ) * (7 / 10) =
      (3 / 10) * ((x : ℚ) / (canvasW : ℚ)) +
        (7 / 10) * ((y : ℚ) / (canvasH : ℚ)) := by ring
  constructor
  · unfold phraseGradientPixel specDiagPixel phraseGradChannel
      specDiagChannel phraseMix
    rw [hAB]
  · exact hmix

/-- Witness for C6: the theorem applies at pixel (10, 20), inside the
1080 × 1350 canvas. -/
theorem phrase_diagonal_gradient_witness :
    (10 < canvasW ∧ 20 < canvasH) ∧
      phraseGradientPixel ⟨244, 169, 139⟩ ⟨242, 155, 155⟩ 10 20 =
        specDiagPixel ⟨244, 169, 139⟩ ⟨242, 155, 155⟩ 10 20 :=
  ⟨⟨by decide, by decide⟩,
    (phrase_diagonal_gradient ⟨244, 169, 139⟩ ⟨242, 155, 155⟩ 10 20
      (by decide) (by decide)).1⟩

/- ---------------------------------------------------------------------
   §6  Content records, defaults, and the Photo template pipeline
   (`ChiffreGenerator.generate` chiffre_generator.py:178-181,
    `PhraseGenerator.generate` phrase_generator.py:131-133,
    `PhotoGenerator.generate` photo_generator.py:146-208)
   --------------------------------------------------------------------- -/

/-- A Python value as it occurs in content records: a string, a boolean,
or a number (ints and floats modelled exactly as rationals). -/
inductive PyVal
  | str (s : String)
  | bool (b : Bool)
  | num (q : ℚ)

/-- A content record: Python dict from field names to values; `none`
models an absent key. -/
abbrev ContentRecord := String → Option PyVal

/-- Python `content.get(key, default)`. -/
def dictGet (c : ContentRecord) (k : String) (d : PyVal) : PyVal :=
  (c k).getD d

/-- Python truthiness of a value: empty string, `False` and zero are
falsy. -/
def truthy : PyVal → Bool
  | .str s => !(s == "")
  | .bool b => b
  | .num q => !(q == 0)

/-- Python truthiness of `dict.get(key)` with no default: an absent key
gives `None`, which is falsy. -/
def truthyOpt : Option PyVal → Bool
  | none => false
  | some v => truthy v

/-- `context_text = content.get("context_text", "")` (chiffre). -/
def chiffreContextText (c : ContentRecord) : PyVal :=
  dictGet c "context_text" (.str "")

/-- `number = content.get("number", "0")` (chiffre). -/
def chiffreNumber (c : ContentRecord) : PyVal :=
  dictGet c "number" (.str "0")

/-- `unit_text = content.get("unit_text", "")` (chiffre). -/
def chiffreUnitText (c : ContentRecord) : PyVal :=
  dictGet c "unit_text" (.str "")

/-- `phrase_text = content.get("text", "")` (phrase). -/
def phraseText (c : ContentRecord) : PyVal :=
  dictGet c "text" (.str "")

/-- The post-processing effect applied by `PhotoGenerator.generate`:
the translucent white veil, the warm color blend (fixed intensity 0.12
plus saturation boost), or none. -/
inductive PhotoEffect
  | light (intensity : PyVal)
  | warm
  | noEffect

/-- True exactly on the light-veil effect. -/
def PhotoEffect.isLight : PhotoEffect → Bool
  | .light _ => true
  | _ => false

/-- True exactly on the warm-filter effect. -/
def PhotoEffect.isWarm : PhotoEffect → Bool
  | .warm => true
  | _ => false

/-- Effect selection of `PhotoGenerator.generate` (lines 189-195):
`if content.get("light_overlay", False): apply_light_overlay(...)`
`elif content.get("apply_filter", True): apply_warm_filter(...)`. -/
def photoEffect (c : ContentRecord) : PhotoEffect :=
  if truthy (dictGet c "light_overlay" (.bool false)) then
    .light (dictGet c "light_overlay_intensity" (.num (35 / 100)))
  else if truthy (dictGet c "apply_filter" (.bool true)) then
    .warm
  else
    .noEffect

/-- `if content.get("overlay_logo", True):` (photo, line 198). -/
def photoOverlayLogo (c : ContentRecord) : Bool :=
  truthy (dictGet c "overlay_logo" (.bool true))

/-- `logo_color = content.get("logo_color", "black")` (photo, line 199). -/
def photoLogoColor (c : ContentRecord) : PyVal :=
  dictGet c "logo_color" (.str "black")

/-- The source raster chosen by `PhotoGenerator.generate`
(lines 161-184): a URL, a local path, or the uniform gray placeholder
`Image.new("RGB", (self.width, self.height), (200, 200, 200))`. -/
inductive PhotoSource
  | fromUrl (u : PyVal)
  | fromPath (p : PyVal)
  | placeholder (color : RGB) (w h : Nat)

/-- The Unsplash resolution step (lines 167-175): when
`unsplash_photo_id` is truthy and `image_url` is falsy, consult the
external Unsplash service — abstracted as `resolve`, where `none`
covers unavailability or a raised exception (both leave `image_url`
unchanged, with a warning). -/
def resolveUnsplash (resolve : PyVal → Option PyVal)
    (unsplashId imageUrl : Option PyVal) : Option PyVal :=
  if truthyOpt unsplashId && !truthyOpt imageUrl then
    match unsplashId with
    | some v =>
        match resolve v with
        | some u => some u
        | none => imageUrl
    | none => imageUrl
  else imageUrl

/-- `if image_url: ... elif image_path: ... else: <gray placeholder>`
(photo, lines 177-184), after the Unsplash resolution step. -/
def photoSelectSource (resolve : PyVal → Option PyVal)
    (c : ContentRecord) : PhotoSource :=
  let url := resolveUnsplash resolve (c "unsplash_photo_id") (c "image_url")
  if truthyOpt url then .fromUrl (url.getD (.str ""))
  else if truthyOpt (c "image_path") then .fromPath ((c "image_path").getD (.str ""))
  else .placeholder ⟨200, 200, 200⟩ canvasW canvasH

/-- The render decisions of one `PhotoGenerator.generate` call: source
raster, post-processing effect, logo overlay, and the output
dimensions, which are always the canvas dimensions because
`resize_and_crop_to_fit` ends with
`img.resize((self.width, self.height))`. -/
structure PhotoRenderPlan where
  source : PhotoSource
  effect : PhotoEffect
  overlayLogo : Bool
  logoColor : PyVal
  outDims : Nat × Nat

/-- The decisions taken by `PhotoGenerator.generate` for a record. -/
def photoGeneratePlan (resolve : PyVal → Option PyVal)
    (c : ContentRecord) : PhotoRenderPlan :=
  { source := photoSelectSource resolve c
    effect := photoEffect c
    overlayLogo := photoOverlayLogo c
    logoColor := photoLogoColor c
    outDims := (canvasW, canvasH) }

/-- Counterexample to C7 as stated: on a record omitting every flag, the
logo overlay does NOT default to off — `content.get("overlay_logo",
True)` defaults it to on. -/
theorem photo_flag_defaults_counterexample :
    ¬ (photoOverlayLogo (fun _ => none) = false) := by decide

/-- C7 amended: when the Photo content record omits a flag, the logo
overlay defaults to ON and the warm filter defaults to on (the light
veil defaults to off, so the warm branch is taken); text fields
elsewhere default to the empty string. -/
theorem photo_flag_defaults (c : ContentRecord) :
    (c "overlay_logo" = none → photoOverlayLogo c = true) ∧
    (c "light_overlay" = none → c "apply_filter" = none →
      photoEffect c = .warm) ∧
    (c "context_text" = none → chiffreContextText c = .str "") ∧
    (c "unit_text" = none → chiffreUnitText c = .str "") ∧
    (c "text" = none → phraseText c = .str "") := by
  refine ⟨?_, ?_, ?_, ?_, ?_⟩
  · intro h
    simp [photoOverlayLogo, dictGet, h, truthy]
  · intro h1 h2
    simp [photoEffect, dictGet, h1, h2, truthy]
  · intro h
    simp [chiffreContextText, dictGet, h]
  · intro h
    simp [chiffreUnitText, dictGet, h]
  · intro h
    simp [phraseText, dictGet, h]

/-- Witness for C7 amended: the all-absent record turns the logo on and
selects the warm filter. -/
theorem photo_flag_defaults_witness :
    ((fun _ => none : ContentRecord) "overlay_logo" = none ∧
      (fun _ => none : ContentRecord) "light_overlay" = none) ∧
    photoOverlayLogo (fun _ => none) = true ∧
    photoEffect (fun _ => none) = .warm :=
  ⟨⟨rfl, rfl⟩, (photo_flag_defaults (fun _ => none)).1 rfl,
    (photo_flag_defaults (fun _ => none)).2.1 rfl rfl⟩

/-- C8: the composers substitute documented defaults for absent required
fields instead of raising — the Number composer uses "" for
`context_text` and `unit_text` and the string "0" for `number`, the
Quote composer uses "" for `text`; each extraction is a total
function. -/
theorem composer_field_defaults (c : ContentRecord) :
    (c "context_text" = none → chiffreContextText c = .str "") ∧
    (c "number" = none → chiffreNumber c = .str "0") ∧
    (c "unit_text" = none → chiffreUnitText c = .str "") ∧
    (c "text" = none → phraseText c = .str "") := by
  refine ⟨?_, ?_, ?_, ?_⟩ <;> intro h
  · simp [chiffreContextText, dictGet, h]
  · simp [chiffreNumber, dictGet, h]
  · simp [chiffreUnitText, dictGet, h]
  · simp [phraseText, dictGet, h]

/-- Witness for C8: the empty record yields "", "0", "", "". -/
theorem composer_field_defaults_witness :
    ((fun _ => none : ContentRecord) "number" = none) ∧
      chiffreNumber (fun _ => none) = .str "0" :=
  ⟨rfl, (composer_field_defaults (fun _ => none)).2.1 rfl⟩

/-- C9: in one Photo render at most one post-processing effect is
applied: a truthy `light_overlay` selects the veil and `apply_filter` is
ignored; otherwise the warm blend is applied exactly when `apply_filter`
is truthy; never both. -/
theorem photo_effect_exclusive (c : ContentRecord) :
    (¬ ((photoEffect c).isLight = true ∧ (photoEffect c).isWarm = true)) ∧
    (truthy (dictGet c "light_overlay" (.bool false)) = true →
      (photoEffect c).isLight = true) ∧
    (truthy (dictGet c "light_overlay" (.bool false)) = false →
      ((photoEffect c).isWarm = true ↔
        truthy (dictGet c "apply_filter" (.bool true)) = true)) := by
  refine ⟨?_, ?_, ?_⟩
  · rintro ⟨h1, h2⟩
    cases heff : photoEffect c <;> rw [heff] at h1 h2 <;>
      simp [PhotoEffect.isLight, PhotoEffect.isWarm] at h1 h2
  · intro h
    simp [photoEffect, h, PhotoEffect.isLight]
  · intro h
    by_cases hf : truthy (dictGet c "apply_filter" (.bool true)) = true
    · simp [photoEffect, h, hf, PhotoEffect.isWarm]
    · simp [photoEffect, h, hf, PhotoEffect.isWarm]

/-- Witness for C9: a record with `light_overlay = True` takes the veil
branch. -/
theorem photo_effect_exclusive_witness :
    truthy (dictGet
        (fun k => if k = "light_overlay" then some (.bool true) else none)
        "light_overlay" (.bool false)) = true ∧
      (photoEffect
        (fun k => if k = "light_overlay" then some (.bool true) else none)).isLight
        = true :=
  ⟨by decide,
    (photo_effect_exclusive
      (fun k => if k = "light_overlay" then some (.bool true) else none)).2.1
      (by decide)⟩

/-- C10: a Photo record supplying none of `image_url`, `image_path`,
`unsplash_photo_id` renders from the uniform gray (200,200,200)
canvas-sized placeholder (no load is attempted, so nothing raises) and
the render still flows through the usual effect/logo decisions and
produces a canvas-sized output. -/
theorem photo_placeholder_fallback (resolve : PyVal → Option PyVal)
    (c : ContentRecord) (hurl : c "image_url" = none)
    (hpath : c "image_path" = none) (hid : c "unsplash_photo_id" = none) :
    (photoGeneratePlan resolve c).source =
        .placeholder ⟨200, 200, 200⟩ canvasW canvasH ∧
      (photoGeneratePlan resolve c).outDims = (canvasW, canvasH) := by
  constructor
  · show photoSelectSource resolve c = _
    unfold photoSelectSource resolveUnsplash
    rw [hurl, hpath, hid]
    simp [truthyOpt]
  · rfl

/-- Witness for C10: the empty record with an arbitrary resolver takes
the placeholder branch. -/
theorem photo_placeholder_fallback_witness :
    ((fun _ => none : ContentRecord) "image_url" = none) ∧
      (photoGeneratePlan (fun _ => none) (fun _ => none)).source =
        .placeholder ⟨200, 200, 200⟩ canvasW canvasH :=
  ⟨rfl, (photo_placeholder_fallback (fun _ => none) (fun _ => none)
    rfl rfl rfl).1⟩

end LeMiddle
